import Mathlib

/-!
Shallow embedding of the secure file-upload service in `app.py`
(Flask app: upload / download / list / delete over a local directory).

Strings are modelled by Lean `String` (a wrapper around `List Char`);
most computation happens on the underlying char lists.  Byte contents
are modelled as `List Nat`.  The filesystem is modelled as a record
holding the current working directory (as canonical path segments),
the regular files stored under the upload folder, and the names of
non-regular entries (subdirectories) under it; there are no symlinks
in the model, so `os.path.realpath` only canonicalises `.`, `..` and
empty segments.
-/

namespace FileUploadApi

/-! ### werkzeug.utils.secure_filename

Modelled for ASCII inputs: `unicodedata.normalize("NFKD", s)` is the
identity on ASCII text, and `encode("ascii", "ignore")` drops any
non-ASCII character, which the first `filter` below reproduces.  On a
POSIX host `os.sep` is the slash and `os.path.altsep` is `None`, and
the Windows device-file branch is dead code, so the remaining steps
are: replace slashes by spaces, split on whitespace and re-join with
underscores, delete every character outside `A-Za-z0-9_.-`, and strip
leading and trailing dots and underscores. -/

/-- The ASCII characters Python `str.split()` treats as whitespace:
space, tab, newline, vertical tab, form feed, carriage return, and the
separator controls `\x1c`-`\x1f`. -/
def isPySpace (c : Char) : Bool :=
  c.toNat == 32 || c.toNat == 9 || c.toNat == 10 ||
  c.toNat == 11 || c.toNat == 12 || c.toNat == 13 ||
  c.toNat == 28 || c.toNat == 29 || c.toNat == 30 || c.toNat == 31

/-- The character class of the regex `[A-Za-z0-9_.-]`, by ASCII code. -/
def isFsSafeChar (c : Char) : Bool :=
  (65 ≤ c.toNat && c.toNat ≤ 90) || (97 ≤ c.toNat && c.toNat ≤ 122) ||
  (48 ≤ c.toNat && c.toNat ≤ 57) || c.toNat == 95 || c.toNat == 46 || c.toNat == 45

def isDotOrUnderscore (c : Char) : Bool := c.toNat == 46 || c.toNat == 95

def secureFilenameL (l : List Char) : List Char :=
  let ascii := l.filter (fun c => c.toNat < 128)
  let spaced := ascii.map (fun c => if c == '/' then ' ' else c)
  let parts := (spaced.splitOnP isPySpace).filter (fun p => !p.isEmpty)
  let joined := List.intercalate ['_'] parts
  let kept := joined.filter isFsSafeChar
  ((kept.dropWhile isDotOrUnderscore).reverse.dropWhile isDotOrUnderscore).reverse

def secure_filename (s : String) : String := ⟨secureFilenameL s.data⟩

/-! ### Extension policy (app.py lines 14-35) -/

def ALLOWED_EXTENSIONS : List String := ["png", "jpg", "jpeg", "gif", "pdf"]

def DANGEROUS_EXTENSIONS : List String :=
  ["exe", "sh", "bat", "cmd", "com", "pif", "scr", "vbs", "js"]

/-- `l.rsplit('.', 1)` as used in `app.py`: `none` when the list holds no
dot, otherwise `some (base, ext)` split at the last dot. -/
def rsplitDot (l : List Char) : Option (List Char × List Char) :=
  let extRev := l.reverse.takeWhile (fun c => c != '.')
  if extRev.length = l.length then none
  else some ((l.reverse.drop (extRev.length + 1)).reverse, extRev.reverse)

/-- The logic of `allowed_file`, abstracted over the two extension sets
(the source reads the two module-level set constants). -/
def allowedFileWith (dangerous allowed : List String) (filename : String) : Bool :=
  match rsplitDot filename.data with
  | none => false
  | some (_, extL) =>
    let ext : String := ⟨extL.map Char.toLower⟩
    if dangerous.contains ext then false
    else allowed.contains ext

/-- `allowed_file` from app.py lines 24-35. -/
def allowed_file (filename : String) : Bool :=
  allowedFileWith DANGEROUS_EXTENSIONS ALLOWED_EXTENSIONS filename

/-! ### Name generator (app.py lines 37-61)

`str(uuid.uuid4())[:8]` and `datetime.now().strftime("%Y%m%d_%H%M%S")`
are runtime inputs; the embedding takes them as the parameters
`uniqueId` and `timestamp`. -/

def generate_unique_filename (original uniqueId timestamp : String) : String :=
  let ext : String :=
    match rsplitDot original.data with
    | none => ""
    | some (_, e) => ⟨e.map Char.toLower⟩
  let name : String :=
    match rsplitDot original.data with
    | none => original
    | some (b, _) => ⟨b⟩
  let safeName := secure_filename name
  uniqueId ++ "_" ++ timestamp ++ "_" ++ safeName ++ "." ++ ext

/-! ### Path resolution (os.path.join / os.path.realpath), symlink-free -/

/-- `os.path.join(a, b)` for POSIX paths. -/
def pyJoin (a b : List Char) : List Char :=
  if b.head? = some '/' then b
  else if a = [] then b
  else if a.getLast? = some '/' then a ++ b
  else a ++ '/' :: b

/-- Canonicalise a segment sequence on top of the base segments:
empty and `.` segments are dropped, `..` removes the last segment. -/
def normSegs (acc : List (List Char)) : List (List Char) → List (List Char)
  | [] => acc
  | s :: rest =>
    if s = [] ∨ s = ['.'] then normSegs acc rest
    else if s = ['.', '.'] then normSegs acc.dropLast rest
    else normSegs (acc ++ [s]) rest

def joinSegs : List (List Char) → List Char
  | [] => []
  | [s] => s
  | s :: t :: rest => s ++ '/' :: joinSegs (t :: rest)

/-- `os.path.realpath(p)` in a filesystem without symlinks: resolve the
(possibly relative) path against the canonical working directory and
normalise the segments; the result is an absolute path. -/
def realpathL (cwd : List (List Char)) (p : List Char) : List Char :=
  let segs := p.splitOnP (fun c => c == '/')
  let base := if p.head? = some '/' then [] else cwd
  '/' :: joinSegs (normSegs base segs)

/-- The containment check of app.py lines 150 and 227:
`real_path.startswith(upload_folder_real)` — a plain string-prefix
test on the two canonicalised paths. -/
def containment_check (realPath rootReal : List Char) : Bool :=
  rootReal.isPrefixOf realPath

/-! ### Filesystem state and the four operations -/

def UPLOAD_FOLDER : String := "uploads"

def MAX_FILE_SIZE : Nat := 5 * 1024 * 1024

/-- State of the model filesystem: canonical working-directory
segments, the regular files under the upload folder (name, bytes),
and the names of non-regular directory entries (subdirectories). -/
structure Fs where
  cwd : List (List Char)
  files : List (String × List Nat)
  dirs : List String

def fsLookup (fs : Fs) (name : String) : Option (List Nat) :=
  (fs.files.find? (fun f => f.1 == name)).map Prod.snd

def rootRealOf (fs : Fs) : List Char := realpathL fs.cwd UPLOAD_FOLDER.data

/-- `os.path.exists` on a path under the model filesystem: the upload
folder itself exists, and so does each stored regular file and each
subdirectory entry. -/
def pathExists (fs : Fs) (path : List Char) : Bool :=
  let rp := realpathL fs.cwd path
  rp == rootRealOf fs || fs.files.any (fun f => rp == rootRealOf fs ++ '/' :: f.1.data)
    || fs.dirs.any (fun d => rp == rootRealOf fs ++ '/' :: d.data)

inductive DownloadResult where
  | accessDenied
  | notFound
  | ok (content : List Nat)
  | fault
  deriving DecidableEq

/-- `download` from app.py lines 131-157.  `fault` is the case where
`send_file` is handed a directory (the sanitized name is empty, so the
joined path is the upload folder itself, or a subdirectory carries the
sanitized name): the raised error is a 500, not one of the handled
responses. -/
def download (fs : Fs) (filename : String) : DownloadResult :=
  let n := secure_filename filename
  let filepath := pyJoin UPLOAD_FOLDER.data n.data
  let realPath := realpathL fs.cwd filepath
  let rootReal := rootRealOf fs
  if ¬ containment_check realPath rootReal then .accessDenied
  else if ¬ pathExists fs filepath then .notFound
  else
    match fs.files.find? (fun f => realPath == rootReal ++ '/' :: f.1.data) with
    | some f => .ok f.2
    | none => .fault

inductive DeleteResult where
  | accessDenied
  | notFound
  | deleted (filename : String)
  | deleteFailed
  deriving DecidableEq

/-- `delete` from app.py lines 209-242.  `os.remove` on a directory
raises and is caught by the `except` clause, hence `deleteFailed`. -/
def delete (fs : Fs) (filename : String) : DeleteResult × Fs :=
  let n := secure_filename filename
  let filepath := pyJoin UPLOAD_FOLDER.data n.data
  let realPath := realpathL fs.cwd filepath
  let rootReal := rootRealOf fs
  if ¬ containment_check realPath rootReal then (.accessDenied, fs)
  else if ¬ pathExists fs filepath then (.notFound, fs)
  else if fs.files.any (fun f => realPath == rootReal ++ '/' :: f.1.data) then
    (.deleted n, { fs with files := fs.files.filter (fun f => ¬ realPath == rootReal ++ '/' :: f.1.data) })
  else (.deleteFailed, fs)

inductive UploadResult where
  | noFileSelected
  | sizeExceeded (message : String)
  | typeNotAllowed
  | uploaded (savedAs : String)
  deriving DecidableEq

/-- The 413 message of app.py line 98: the f-string renders
`MAX_FILE_SIZE / (1024 * 1024) = 5.0` as the text `5.0`. -/
def sizeExceededMessage : String := "File too large! Maximum 5.0MB allowed"

/-- `upload` from app.py lines 71-125.  The request-extraction step
(`'file' in request.files`) is out-of-scope plumbing; the embedding
receives the filename and the bytes directly, and keeps the in-order
checks: empty filename, size, extension policy, then the write. -/
def upload (fs : Fs) (filename : String) (content : List Nat)
    (uniqueId timestamp : String) : UploadResult × Fs :=
  if filename = "" then (.noFileSelected, fs)
  else if MAX_FILE_SIZE < content.length then (.sizeExceeded sizeExceededMessage, fs)
  else if ¬ allowed_file filename then (.typeNotAllowed, fs)
  else
    let u := generate_unique_filename filename uniqueId timestamp
    (.uploaded u, { fs with files := (u, content) :: fs.files.filter (fun f => ¬ f.1 = u) })

/-! ### List endpoint (app.py lines 163-203) with exact rationals

Python `round(x, 2)` rounds half to even; the model rounds exactly on
`ℚ` (the binary-float wobble of CPython is not modelled, the claims
about the list endpoint are structural). -/

/-- Mathematical floor of a rational, computed directly on numerator
and denominator (the denominator is positive). -/
def floorQ (q : ℚ) : ℤ := Int.fdiv q.num q.den

def roundHalfEvenQ (q : ℚ) : ℤ :=
  let f := floorQ q
  let r := q - f
  if r < 1/2 then f
  else if 1/2 < r then f + 1
  else if f % 2 = 0 then f else f + 1

def round2 (q : ℚ) : ℚ := (roundHalfEvenQ (q * 100) : ℚ) / 100

/-- `get_file_size_mb` from app.py lines 63-66, on a byte count. -/
def get_file_size_mb (sizeBytes : Nat) : ℚ :=
  round2 ((sizeBytes : ℚ) / (1024 * 1024))

/-- `os.listdir` of the upload folder: every directory entry, regular
files and subdirectories alike. -/
def listdir (fs : Fs) : List String := fs.files.map Prod.fst ++ fs.dirs

/-- One iteration of the loop in `files`: skip non-regular entries,
otherwise append the entry and accumulate its rounded size. -/
def filesStep (fs : Fs) (acc : List (String × ℚ) × ℚ) (name : String) :
    List (String × ℚ) × ℚ :=
  match fsLookup fs name with
  | none => acc
  | some content =>
    let mb := get_file_size_mb content.length
    (acc.1 ++ [(name, mb)], acc.2 + mb)

structure FilesSummary where
  total_files : Nat
  total_size_mb : ℚ
  entries : List (String × ℚ)

/-- `files` from app.py lines 163-203: fold the listing loop, then
round the accumulated total once more. -/
def files (fs : Fs) : FilesSummary :=
  let r := (listdir fs).foldl (filesStep fs) ([], 0)
  { total_files := r.1.length, total_size_mb := round2 r.2, entries := r.1 }

/-! ### Character-level facts -/

theorem fsSafe_ascii {c : Char} (h : isFsSafeChar c = true) : c.toNat < 128 := by
  simp [isFsSafeChar] at h
  omega

theorem fsSafe_not_space {c : Char} (h : isFsSafeChar c = true) : isPySpace c = false := by
  simp [isFsSafeChar] at h
  simp [isPySpace]
  omega

theorem fsSafe_not_slash {c : Char} (h : isFsSafeChar c = true) : (c == '/') = false := by
  rcases hb : c == '/' with _ | _
  · rfl
  · rw [beq_iff_eq] at hb
    subst hb
    simp [isFsSafeChar] at h

theorem fsSafe_ne_slash {c : Char} (h : isFsSafeChar c = true) : c ≠ '/' := by
  intro hc
  subst hc
  simp [isFsSafeChar] at h

theorem fsSafe_ne_backslash {c : Char} (h : isFsSafeChar c = true) : c ≠ '\\' := by
  intro hc
  subst hc
  simp [isFsSafeChar] at h

/-! ### Facts about `secureFilenameL` -/

theorem map_id_of_mem {α : Type} {f : α → α} :
    ∀ {l : List α}, (∀ x ∈ l, f x = x) → l.map f = l := by
  intro l
  induction l with
  | nil => intro _; rfl
  | cons a t ih =>
    intro h
    simp only [List.map_cons]
    rw [h a (by simp), ih (fun x hx => h x (by simp [hx]))]

theorem mem_dropWhile {α : Type} {p : α → Bool} {l : List α} {c : α}
    (h : c ∈ l.dropWhile p) : c ∈ l :=
  (List.dropWhile_sublist p).mem h

theorem head?_dropWhile_not {α : Type} {p : α → Bool} :
    ∀ {l : List α} {c : α}, (l.dropWhile p).head? = some c → p c = false := by
  intro l
  induction l with
  | nil => intro c h; simp [List.dropWhile] at h
  | cons a t ih =>
    intro c h
    rw [List.dropWhile_cons] at h
    by_cases ha : p a = true
    · exact ih (by simpa [ha] using h)
    · have hb : p a = false := by simpa using ha
      simp [hb] at h
      rw [← h]
      exact hb

/-- Every character of the sanitizer output belongs to `[A-Za-z0-9_.-]`. -/
theorem secureFilenameL_chars_safe {l : List Char} :
    ∀ c ∈ secureFilenameL l, isFsSafeChar c = true := by
  intro c hc
  unfold secureFilenameL at hc
  rw [List.mem_reverse] at hc
  have hc2 := mem_dropWhile hc
  rw [List.mem_reverse] at hc2
  have hc3 := mem_dropWhile hc2
  exact (List.mem_filter.mp hc3).2

/-- The sanitizer output never starts with a dot or an underscore
(nor, read through `getLast`, ends with one). -/
theorem secureFilenameL_getLast_not {l : List Char} {c : Char}
    (h : (secureFilenameL l).getLast? = some c) : isDotOrUnderscore c = false := by
  unfold secureFilenameL at h
  rw [List.getLast?_eq_head?_reverse, List.reverse_reverse] at h
  exact head?_dropWhile_not h

theorem secureFilenameL_ne_dot {l : List Char} : secureFilenameL l ≠ ['.'] := by
  intro h
  have := secureFilenameL_getLast_not (l := l) (c := '.') (by rw [h]; rfl)
  simp [isDotOrUnderscore] at this

theorem secureFilenameL_ne_dotdot {l : List Char} : secureFilenameL l ≠ ['.', '.'] := by
  intro h
  have := secureFilenameL_getLast_not (l := l) (c := '.') (by rw [h]; rfl)
  simp [isDotOrUnderscore] at this

/-- A nonempty list of `[A-Za-z0-9_.-]` characters that neither starts
nor ends with a dot or underscore is a fixed point of the sanitizer. -/
theorem secureFilenameL_eq_self {a : Char} {t : List Char}
    (hall : ∀ c ∈ a :: t, isFsSafeChar c = true)
    (hhead : isDotOrUnderscore a = false)
    (hlast : ∀ c, (a :: t).getLast? = some c → isDotOrUnderscore c = false) :
    secureFilenameL (a :: t) = a :: t := by
  have h1 : (a :: t).filter (fun c => c.toNat < 128) = a :: t := by
    rw [List.filter_eq_self]
    intro c hc
    simpa using fsSafe_ascii (hall c hc)
  have h2 : (a :: t).map (fun c => if c == '/' then ' ' else c) = a :: t := by
    apply map_id_of_mem
    intro c hc
    simp [fsSafe_not_slash (hall c hc)]
  simp only [secureFilenameL]
  rw [h1, h2]
  have h3 : (a :: t).splitOnP isPySpace = [a :: t] := by
    apply List.splitOnP_eq_single
    intro c hc
    simp [fsSafe_not_space (hall c hc)]
  rw [h3]
  have h4 : ([a :: t].filter (fun p => !p.isEmpty)) = [a :: t] := by simp
  rw [h4]
  have h5 : List.intercalate ['_'] [a :: t] = a :: t := by
    simp [List.intercalate]
  rw [h5]
  have h6 : (a :: t).filter isFsSafeChar = a :: t := List.filter_eq_self.mpr hall
  rw [h6]
  have h7 : (a :: t).dropWhile isDotOrUnderscore = a :: t := by
    rw [List.dropWhile_cons, hhead]
    simp
  rw [h7]
  obtain ⟨b, r, hbr⟩ : ∃ b r, (a :: t).reverse = b :: r := by
    rcases hrev : (a :: t).reverse with _ | ⟨b, r⟩
    · exact absurd (congrArg List.length hrev) (by simp)
    · exact ⟨b, r, rfl⟩
  have hb : isDotOrUnderscore b = false := by
    apply hlast
    rw [List.getLast?_eq_head?_reverse, hbr]
    rfl
  rw [hbr, List.dropWhile_cons, hb]
  simp
  have hrr := congrArg List.reverse hbr
  rw [List.reverse_reverse] at hrr
  simpa using hrr.symm

/-! ### Facts about the path model -/

theorem mem_of_head? {α : Type} {l : List α} {c : α} (h : l.head? = some c) : c ∈ l := by
  cases l with
  | nil => simp at h
  | cons a t =>
    simp at h
    simp [h]

theorem joinSegs_append_single :
    ∀ (xs : List (List Char)), xs ≠ [] → ∀ y : List Char,
      joinSegs (xs ++ [y]) = joinSegs xs ++ '/' :: y := by
  intro xs
  induction xs with
  | nil => intro h; exact absurd rfl h
  | cons s t ih =>
    intro _ y
    cases t with
    | nil => simp [joinSegs]
    | cons t1 t2 =>
      have step := ih (by simp) y
      have e1 : (s :: t1 :: t2) ++ [y] = s :: t1 :: (t2 ++ [y]) := by simp
      rw [e1]
      show s ++ '/' :: joinSegs (t1 :: (t2 ++ [y])) = joinSegs (s :: t1 :: t2) ++ '/' :: y
      have e2 : t1 :: (t2 ++ [y]) = (t1 :: t2) ++ [y] := by simp
      rw [e2, step]
      show s ++ '/' :: (joinSegs (t1 :: t2) ++ '/' :: y)
        = (s ++ '/' :: joinSegs (t1 :: t2)) ++ '/' :: y
      simp

theorem normSegs_ordinary (acc : List (List Char)) (s : List Char) (rest : List (List Char))
    (h1 : s ≠ []) (h2 : s ≠ ['.']) (h3 : s ≠ ['.', '.']) :
    normSegs acc (s :: rest) = normSegs (acc ++ [s]) rest := by
  simp [normSegs, h1, h2, h3]

theorem normSegs_skip_empty (acc : List (List Char)) (rest : List (List Char)) :
    normSegs acc ([] :: rest) = normSegs acc rest := by
  simp [normSegs]

theorem normSegs_nil (acc : List (List Char)) : normSegs acc [] = acc := rfl

theorem uploads_data : UPLOAD_FOLDER.data = ['u', 'p', 'l', 'o', 'a', 'd', 's'] := rfl

theorem splitOnP_no_slash {n : List Char} (h : ∀ c ∈ n, isFsSafeChar c = true) :
    n.splitOnP (fun c => c == '/') = [n] := by
  apply List.splitOnP_eq_single
  intro c hc
  simp [fsSafe_not_slash (h c hc)]

theorem pyJoin_uploads {n : List Char} (h : ∀ c ∈ n, isFsSafeChar c = true) :
    pyJoin UPLOAD_FOLDER.data n = UPLOAD_FOLDER.data ++ '/' :: n := by
  have hh : ¬ n.head? = some '/' := by
    intro hc
    exact fsSafe_ne_slash (h '/' (mem_of_head? hc)) rfl
  rw [pyJoin, if_neg hh, if_neg (by rw [uploads_data]; simp),
    if_neg (by rw [uploads_data]; simp)]

/-- Resolving the joined path of a sanitizer-charset name: the result is
the canonical root followed by the name as a single path segment. -/
theorem realpath_join_sanitized (cwd : List (List Char)) (n : List Char)
    (hns : ∀ c ∈ n, isFsSafeChar c = true) (hne : n ≠ [])
    (hd1 : n ≠ ['.']) (hd2 : n ≠ ['.', '.']) :
    realpathL cwd (pyJoin UPLOAD_FOLDER.data n) =
      realpathL cwd UPLOAD_FOLDER.data ++ '/' :: n := by
  rw [pyJoin_uploads hns]
  simp only [realpathL]
  rw [uploads_data]
  have hsplit : (['u', 'p', 'l', 'o', 'a', 'd', 's'] ++ '/' :: n).splitOnP (fun c => c == '/')
      = ['u', 'p', 'l', 'o', 'a', 'd', 's'] :: n.splitOnP (fun c => c == '/') := by
    apply List.splitOnP_first
    · intro c hc
      fin_cases hc <;> simp
    · rfl
  rw [hsplit, splitOnP_no_slash hns]
  have hsplit2 : (['u', 'p', 'l', 'o', 'a', 'd', 's'] : List Char).splitOnP (fun c => c == '/')
      = [['u', 'p', 'l', 'o', 'a', 'd', 's']] := by
    apply List.splitOnP_eq_single
    intro c hc
    fin_cases hc <;> simp
  rw [hsplit2]
  have hh1 : ((['u', 'p', 'l', 'o', 'a', 'd', 's'] ++ '/' :: n).head? = some '/') = False := by
    simp
  have hh2 : ((['u', 'p', 'l', 'o', 'a', 'd', 's'] : List Char).head? = some '/') = False := by
    simp
  simp only [hh1, hh2, if_false]
  rw [normSegs_ordinary cwd ['u', 'p', 'l', 'o', 'a', 'd', 's'] [n]
      (by simp) (by simp) (by simp)]
  rw [normSegs_ordinary (cwd ++ [['u', 'p', 'l', 'o', 'a', 'd', 's']]) n [] hne hd1 hd2]
  rw [normSegs_ordinary cwd ['u', 'p', 'l', 'o', 'a', 'd', 's'] []
      (by simp) (by simp) (by simp)]
  simp only [normSegs_nil]
  rw [joinSegs_append_single _ (by simp) n]
  simp

/-- Resolving the joined path of the empty sanitized name: the trailing
slash is dropped and the result is the canonical root itself. -/
theorem realpath_join_nil (cwd : List (List Char)) :
    realpathL cwd (pyJoin UPLOAD_FOLDER.data []) = realpathL cwd UPLOAD_FOLDER.data := by
  rw [pyJoin_uploads (by intro c hc; simp at hc)]
  simp only [realpathL]
  rw [uploads_data]
  have hsplit : (['u', 'p', 'l', 'o', 'a', 'd', 's'] ++ '/' :: ([] : List Char)).splitOnP
      (fun c => c == '/')
      = ['u', 'p', 'l', 'o', 'a', 'd', 's'] :: ([] : List Char).splitOnP (fun c => c == '/') := by
    apply List.splitOnP_first
    · intro c hc
      fin_cases hc <;> simp
    · rfl
  rw [hsplit]
  have hsplit2 : (['u', 'p', 'l', 'o', 'a', 'd', 's'] : List Char).splitOnP (fun c => c == '/')
      = [['u', 'p', 'l', 'o', 'a', 'd', 's']] := by
    apply List.splitOnP_eq_single
    intro c hc
    fin_cases hc <;> simp
  rw [hsplit2]
  have hnil : ([] : List Char).splitOnP (fun c => c == '/') = [[]] := List.splitOnP_nil _
  rw [hnil]
  have hh1 : ((['u', 'p', 'l', 'o', 'a', 'd', 's'] ++ '/' :: ([] : List Char)).head? = some '/')
      = False := by simp
  have hh2 : ((['u', 'p', 'l', 'o', 'a', 'd', 's'] : List Char).head? = some '/') = False := by
    simp
  simp only [hh1, hh2, if_false]
  rw [normSegs_ordinary cwd ['u', 'p', 'l', 'o', 'a', 'd', 's'] [[]]
      (by simp) (by simp) (by simp)]
  rw [normSegs_skip_empty (cwd ++ [['u', 'p', 'l', 'o', 'a', 'd', 's']]) []]
  rw [normSegs_ordinary cwd ['u', 'p', 'l', 'o', 'a', 'd', 's'] []
      (by simp) (by simp) (by simp)]

theorem containment_check_append (root tail : List Char) :
    containment_check (root ++ tail) root = true := by
  simp [containment_check]

theorem containment_check_self (root : List Char) :
    containment_check root root = true := by
  simp [containment_check]

/-- After `secure_filename`, the containment check of download/delete
always passes in the symlink-free model. -/
theorem containment_sanitized (fs : Fs) (name : String) :
    containment_check
      (realpathL fs.cwd (pyJoin UPLOAD_FOLDER.data (secure_filename name).data))
      (rootRealOf fs) = true := by
  have hdata : (secure_filename name).data = secureFilenameL name.data := rfl
  rcases hcase : secureFilenameL name.data with _ | ⟨a, t⟩
  · rw [rootRealOf, hdata, hcase, realpath_join_nil]
    exact containment_check_self _
  · rw [rootRealOf, hdata, hcase,
      realpath_join_sanitized fs.cwd (a :: t)
        (by rw [← hcase]; exact secureFilenameL_chars_safe)
        (by simp)
        (by rw [← hcase]; exact secureFilenameL_ne_dot)
        (by rw [← hcase]; exact secureFilenameL_ne_dotdot)]
    exact containment_check_append _ _

/-! ### Facts about the extension policy and the name generator -/

theorem allowed_file_ext {filename : String} (h : allowed_file filename = true) :
    ∃ b e, rsplitDot filename.data = some (b, e) ∧
      (⟨e.map Char.toLower⟩ : String) ∈ ALLOWED_EXTENSIONS := by
  unfold allowed_file allowedFileWith at h
  rcases hs : rsplitDot filename.data with _ | ⟨b, e⟩
  · rw [hs] at h
    simp at h
  · rw [hs] at h
    refine ⟨b, e, rfl, ?_⟩
    simp [List.contains, List.elem_iff] at h
    exact h.2

/-- Case analysis on the generator when the original has an extension. -/
theorem gen_eq (original uid ts : String) {b e : List Char}
    (hs : rsplitDot original.data = some (b, e)) :
    generate_unique_filename original uid ts
      = uid ++ "_" ++ ts ++ "_" ++ secure_filename ⟨b⟩ ++ "." ++ (⟨e.map Char.toLower⟩ : String) := by
  simp only [generate_unique_filename]
  rw [hs]

/-- Case analysis on the generator when the original has no dot: the
extension is empty, so the output ends with the separator dot. -/
theorem gen_eq_noDot (original uid ts : String) (hs : rsplitDot original.data = none) :
    generate_unique_filename original uid ts
      = uid ++ "_" ++ ts ++ "_" ++ secure_filename original ++ "." := by
  simp only [generate_unique_filename]
  rw [hs, String.append_empty]

/-- The first 8 characters of `str(uuid.uuid4())` are lowercase hex
digits. -/
def UidOk (uid : String) : Prop :=
  uid.data ≠ [] ∧ ∀ c ∈ uid.data,
    (48 ≤ c.toNat ∧ c.toNat ≤ 57) ∨ (97 ≤ c.toNat ∧ c.toNat ≤ 102)

/-- `strftime("%Y%m%d_%H%M%S")` output consists of digits and one
underscore. -/
def TsOk (ts : String) : Prop :=
  ts.data ≠ [] ∧ ∀ c ∈ ts.data, (48 ≤ c.toNat ∧ c.toNat ≤ 57) ∨ c.toNat = 95

theorem uid_char_safe {c : Char}
    (h : (48 ≤ c.toNat ∧ c.toNat ≤ 57) ∨ (97 ≤ c.toNat ∧ c.toNat ≤ 102)) :
    isFsSafeChar c = true ∧ isDotOrUnderscore c = false := by
  constructor <;> simp [isFsSafeChar, isDotOrUnderscore] <;> omega

theorem ts_char_safe {c : Char}
    (h : (48 ≤ c.toNat ∧ c.toNat ≤ 57) ∨ c.toNat = 95) :
    isFsSafeChar c = true := by
  simp [isFsSafeChar]
  omega

theorem allowed_ext_data {s : String} (h : s ∈ ALLOWED_EXTENSIONS) :
    s.data = "png".data ∨ s.data = "jpg".data ∨ s.data = "jpeg".data ∨
    s.data = "gif".data ∨ s.data = "pdf".data := by
  simp [ALLOWED_EXTENSIONS] at h
  rcases h with h | h | h | h | h <;> subst h <;> simp

theorem allowed_ext_chars_safe {s : String} (h : s ∈ ALLOWED_EXTENSIONS) :
    ∀ c ∈ s.data, isFsSafeChar c = true := by
  rcases allowed_ext_data h with hd | hd | hd | hd | hd <;> rw [hd] <;> decide

/-- Every character of a generated storage name lies in `[A-Za-z0-9_.-]`. -/
theorem gen_chars_safe {original uid ts : String} {b e : List Char}
    (hs : rsplitDot original.data = some (b, e))
    (hext : (⟨e.map Char.toLower⟩ : String) ∈ ALLOWED_EXTENSIONS)
    (huid : UidOk uid) (hts : TsOk ts) :
    ∀ c ∈ (generate_unique_filename original uid ts).data, isFsSafeChar c = true := by
  intro c hc
  rw [gen_eq original uid ts hs] at hc
  simp only [String.data_append] at hc
  simp only [List.mem_append] at hc
  rcases hc with (((((hc | hc) | hc) | hc) | hc) | hc) | hc
  · exact (uid_char_safe (huid.2 c hc)).1
  · simp at hc
    subst hc
    decide
  · exact ts_char_safe (hts.2 c hc)
  · simp at hc
    subst hc
    decide
  · exact secureFilenameL_chars_safe c hc
  · simp at hc
    subst hc
    decide
  · exact allowed_ext_chars_safe hext c hc

set_option maxHeartbeats 1000000 in
/-- A generated storage name is a fixed point of `secure_filename`:
it is nonempty, all its characters are in the safe class, it starts
with a hex digit and ends with the extension letter. -/
theorem secure_gen_id {original uid ts : String}
    (hok : allowed_file original = true) (huid : UidOk uid) (hts : TsOk ts) :
    secure_filename (generate_unique_filename original uid ts)
      = generate_unique_filename original uid ts := by
  obtain ⟨b, e, hs, hext⟩ := allowed_file_ext hok
  obtain ⟨a0, u0, hu0⟩ : ∃ a0 u0, uid.data = a0 :: u0 := by
    rcases hud : uid.data with _ | ⟨a0, u0⟩
    · exact absurd hud huid.1
    · exact ⟨a0, u0, rfl⟩
  have hdata : (generate_unique_filename original uid ts).data
      = uid.data ++ ['_'] ++ ts.data ++ ['_'] ++ secureFilenameL b
          ++ ['.'] ++ e.map Char.toLower := by
    rw [gen_eq original uid ts hs]
    simp only [String.data_append]
    rfl
  obtain ⟨t, ht⟩ : ∃ t, (generate_unique_filename original uid ts).data = a0 :: t := by
    rw [hdata, hu0]
    exact ⟨_, rfl⟩
  have hall : ∀ c ∈ (generate_unique_filename original uid ts).data, isFsSafeChar c = true :=
    gen_chars_safe hs hext huid hts
  have hhead : isDotOrUnderscore a0 = false := by
    have := huid.2 a0 (by rw [hu0]; simp)
    exact (uid_char_safe this).2
  have hlast : ∀ c, (a0 :: t).getLast? = some c → isDotOrUnderscore c = false := by
    intro c hcl
    rw [← ht, hdata] at hcl
    have hily : ∃ pre lc, (e.map Char.toLower) = pre ++ [lc] ∧ isDotOrUnderscore lc = false := by
      rcases allowed_ext_data hext with hd | hd | hd | hd | hd <;>
        rw [show e.map Char.toLower = (⟨e.map Char.toLower⟩ : String).data from rfl, hd]
      · exact ⟨['p', 'n'], 'g', rfl, rfl⟩
      · exact ⟨['j', 'p'], 'g', rfl, rfl⟩
      · exact ⟨['j', 'p', 'e'], 'g', rfl, rfl⟩
      · exact ⟨['g', 'i'], 'f', rfl, rfl⟩
      · exact ⟨['p', 'd'], 'f', rfl, rfl⟩
    obtain ⟨pre, lc, hpre, hlc⟩ := hily
    rw [hpre] at hcl
    have hshift : uid.data ++ ['_'] ++ ts.data ++ ['_'] ++ secureFilenameL b
        ++ ['.'] ++ (pre ++ [lc])
        = (uid.data ++ ['_'] ++ ts.data ++ ['_'] ++ secureFilenameL b
            ++ ['.'] ++ pre) ++ [lc] := by
      simp
    rw [hshift, List.getLast?_concat] at hcl
    cases hcl
    exact hlc
  have hfix : secureFilenameL (a0 :: t) = a0 :: t :=
    secureFilenameL_eq_self (by rw [← ht]; exact hall) hhead hlast
  have hdd : (secure_filename (generate_unique_filename original uid ts)).data
      = (generate_unique_filename original uid ts).data := by
    show secureFilenameL (generate_unique_filename original uid ts).data
      = (generate_unique_filename original uid ts).data
    rw [ht, hfix]
  exact String.ext hdd

theorem rsplitDot_eq_none {l : List Char} (h : '.' ∉ l) : rsplitDot l = none := by
  simp only [rsplitDot]
  have htw : l.reverse.takeWhile (fun c => c != '.') = l.reverse := by
    rw [List.takeWhile_eq_self_iff]
    intro x hx
    rw [List.mem_reverse] at hx
    simp only [bne_iff_ne, ne_eq]
    intro hxeq
    exact h (hxeq ▸ hx)
  rw [htw]
  simp

/-! ### Facts about the list endpoint -/

theorem find?_eq_of_nodup :
    ∀ {l : List (String × List Nat)}, (l.map Prod.fst).Nodup →
    ∀ {p : String × List Nat}, p ∈ l → l.find? (fun f => f.1 == p.1) = some p := by
  intro l
  induction l with
  | nil => intro _ p hp; simp at hp
  | cons q t ih =>
    intro hnd p hp
    rcases List.mem_cons.mp hp with rfl | hmem
    · exact List.find?_cons_of_pos _ (by simp)
    · have hnd2 : (q.1 :: t.map Prod.fst).Nodup := by simpa using hnd
      have hnd' := List.nodup_cons.mp hnd2
      have hq : ¬ (q.1 == p.1) = true := by
        simp only [beq_iff_eq]
        intro hqp
        have hpm : p.1 ∈ t.map Prod.fst := List.mem_map.mpr ⟨p, hmem, rfl⟩
        rw [← hqp] at hpm
        exact hnd'.1 hpm
      rw [show List.find? (fun f => f.1 == p.1) (q :: t)
          = List.find? (fun f => f.1 == p.1) t from List.find?_cons_of_neg t hq]
      exact ih hnd'.2 hmem

theorem fsLookup_mem {fs : Fs} (hnd : (fs.files.map Prod.fst).Nodup)
    {p : String × List Nat} (hp : p ∈ fs.files) : fsLookup fs p.1 = some p.2 := by
  unfold fsLookup
  rw [find?_eq_of_nodup hnd hp]
  rfl

theorem fsLookup_notMem {fs : Fs} {d : String} (hd : ∀ f ∈ fs.files, f.1 ≠ d) :
    fsLookup fs d = none := by
  unfold fsLookup
  rw [List.find?_eq_none.mpr]
  · rfl
  · intro x hx
    simp only [beq_iff_eq]
    exact hd x hx

theorem foldl_filesStep_files (fs : Fs) :
    ∀ L : List (String × List Nat), (∀ p ∈ L, fsLookup fs p.1 = some p.2) →
    ∀ acc : List (String × ℚ) × ℚ,
      (L.map Prod.fst).foldl (filesStep fs) acc
        = (acc.1 ++ L.map (fun p => (p.1, get_file_size_mb p.2.length)),
           acc.2 + (L.map (fun p => get_file_size_mb p.2.length)).sum) := by
  intro L
  induction L with
  | nil => intro _ acc; simp
  | cons p t ih =>
    intro hL acc
    simp only [List.map_cons, List.foldl_cons]
    rw [show filesStep fs acc p.1
        = (acc.1 ++ [(p.1, get_file_size_mb p.2.length)],
           acc.2 + get_file_size_mb p.2.length) from by
      simp [filesStep, hL p (by simp)]]
    rw [ih (fun q hq => hL q (by simp [hq]))]
    simp [add_assoc]

theorem foldl_filesStep_dirs (fs : Fs) :
    ∀ D : List String, (∀ d ∈ D, fsLookup fs d = none) →
    ∀ acc : List (String × ℚ) × ℚ, D.foldl (filesStep fs) acc = acc := by
  intro D
  induction D with
  | nil => intro _ _; rfl
  | cons d t ih =>
    intro hD acc
    simp only [List.foldl_cons]
    rw [show filesStep fs acc d = acc from by simp [filesStep, hD d (by simp)]]
    exact ih (fun x hx => hD x (by simp [hx])) acc

/-- The names of the regular files are pairwise distinct and no
subdirectory shares a name with a regular file. -/
def FsNamesOk (fs : Fs) : Prop :=
  (fs.files.map Prod.fst).Nodup ∧ ∀ d ∈ fs.dirs, ∀ f ∈ fs.files, f.1 ≠ d

theorem files_characterization (fs : Fs) (h : FsNamesOk fs) :
    (files fs).total_files = fs.files.length ∧
    (files fs).total_size_mb
      = round2 ((fs.files.map (fun f => get_file_size_mb f.2.length)).sum) := by
  have h1 : (listdir fs).foldl (filesStep fs) ([], 0)
      = (fs.files.map (fun p => (p.1, get_file_size_mb p.2.length)),
         (fs.files.map (fun p => get_file_size_mb p.2.length)).sum) := by
    unfold listdir
    rw [List.foldl_append]
    rw [foldl_filesStep_files fs fs.files (fun p hp => fsLookup_mem h.1 hp) ([], 0)]
    rw [foldl_filesStep_dirs fs fs.dirs (fun d hd => fsLookup_notMem (h.2 d hd)) _]
    simp
  constructor
  · show ((listdir fs).foldl (filesStep fs) ([], 0)).1.length = _
    rw [h1]
    simp
  · show round2 ((listdir fs).foldl (filesStep fs) ([], 0)).2 = _
    rw [h1]

/-! ### Behaviour of download and delete on sanitized names -/

theorem realpath_secure_cons (fs : Fs) (name : String) {a : Char} {t : List Char}
    (hn : (secure_filename name).data = a :: t) :
    realpathL fs.cwd (pyJoin UPLOAD_FOLDER.data (secure_filename name).data)
      = rootRealOf fs ++ '/' :: (a :: t) := by
  rw [hn, rootRealOf]
  exact realpath_join_sanitized fs.cwd (a :: t)
    (fun c hc => by rw [← hn] at hc; exact secureFilenameL_chars_safe c hc)
    (by simp)
    (by rw [← hn]; exact secureFilenameL_ne_dot)
    (by rw [← hn]; exact secureFilenameL_ne_dotdot)

/-- When `os.path.exists` is false on the resolved candidate path,
download reaches the 404 branch: the containment check before it
always passes on a sanitized name. -/
theorem download_missing (fs : Fs) (name : String)
    (hmiss : pathExists fs (pyJoin UPLOAD_FOLDER.data (secure_filename name).data) = false) :
    download fs name = .notFound := by
  have hc := containment_sanitized fs name
  simp only [download, hc, hmiss]
  simp

/-- When `os.path.exists` is false on the resolved candidate path,
delete likewise reaches the 404 branch. -/
theorem delete_missing (fs : Fs) (name : String)
    (hmiss : pathExists fs (pyJoin UPLOAD_FOLDER.data (secure_filename name).data) = false) :
    (delete fs name).1 = .notFound := by
  have hc := containment_sanitized fs name
  simp only [delete, hc, hmiss]
  simp

theorem download_stored_head (fs : Fs) (u : String) (content : List Nat)
    (hsec : secure_filename u = u) {a : Char} {t : List Char} (hu : u.data = a :: t)
    {rest : List (String × List Nat)} (hrest : fs.files = (u, content) :: rest) :
    download fs u = .ok content := by
  have hn : (secure_filename u).data = a :: t := by rw [hsec, hu]
  have hrp := realpath_secure_cons fs u hn
  have hc := containment_sanitized fs u
  have hex : pathExists fs (pyJoin UPLOAD_FOLDER.data (secure_filename u).data) = true := by
    simp only [pathExists]
    rw [hrp, hrest]
    simp [List.any_cons, hu]
  have hfind : List.find?
      (fun f => (rootRealOf fs ++ '/' :: (a :: t)) == rootRealOf fs ++ '/' :: f.1.data)
      ((u, content) :: rest) = some (u, content) := by
    apply List.find?_cons_of_pos
    simp [hu]
  simp only [download, hex, hrp, hrest, containment_check_append]
  rw [hfind]
  simp

/-! ### Additional structural facts used by the claim theorems -/

theorem gen_data {original uid ts : String} {b e : List Char}
    (hs : rsplitDot original.data = some (b, e)) :
    (generate_unique_filename original uid ts).data
      = uid.data ++ ['_'] ++ ts.data ++ ['_'] ++ secureFilenameL b
          ++ ['.'] ++ e.map Char.toLower := by
  rw [gen_eq original uid ts hs]
  simp only [String.data_append]
  rfl

/-- Modelled from the spec: the directory-boundary containment that the
spec mandates for the Path Resolver — the canonicalized candidate path
either equals the canonicalized root or extends it at a path-separator
boundary. -/
def boundary_containment (realPath rootReal : List Char) : Bool :=
  realPath == rootReal || (rootReal ++ ['/']).isPrefixOf realPath

/-! ### The claims -/

/-- C1: the containment check the code runs on download and delete
(`real_path.startswith(upload_folder_real)`, app.py lines 150 and 227)
accepts the canonicalized sibling directory `/data/uploads2` against
root `/data/uploads`, while the directory-boundary containment the
spec requires rejects it: the code check is an arbitrary string-prefix
test, not a path-segment-aware one. -/
theorem c1_sibling_prefix_passes :
    containment_check ("/data/uploads2").data ("/data/uploads").data = true ∧
    boundary_containment ("/data/uploads2").data ("/data/uploads").data = false := by
  decide

/-- C2 counterexample: on the empty store, the traversal input
`../../etc/passwd` makes both download and delete answer NotFound —
not AccessDenied as the claim states — because `secure_filename`
rewrites the name to `etc_passwd` before the containment check, which
then passes. -/
theorem c2_traversal_counterexample :
    download ⟨[], [], []⟩ "../../etc/passwd" = DownloadResult.notFound ∧
    (delete ⟨[], [], []⟩ "../../etc/passwd").1 = DeleteResult.notFound ∧
    DownloadResult.notFound ≠ DownloadResult.accessDenied ∧
    DeleteResult.notFound ≠ DeleteResult.accessDenied := by
  refine ⟨by decide, by decide, by decide, by decide⟩

/-- C2 amended: a client-supplied name with traversal sequences is
sanitized before resolution, so the resolved path always stays inside
the storage root and the containment check passes — for every name and
state; and whenever the resolved candidate path does not exist
(`os.path.exists` is false on it), download and delete answer
NotFound, not AccessDenied — in particular `../../etc/passwd` on the
empty store. -/
theorem c2_traversal_neutralized (fs : Fs) (name : String)
    (hmiss : pathExists fs
      (pyJoin UPLOAD_FOLDER.data (secure_filename name).data) = false) :
    containment_check
      (realpathL fs.cwd (pyJoin UPLOAD_FOLDER.data (secure_filename name).data))
      (rootRealOf fs) = true ∧
    download fs name = DownloadResult.notFound ∧
    (delete fs name).1 = DeleteResult.notFound :=
  ⟨containment_sanitized fs name, download_missing fs name hmiss,
    delete_missing fs name hmiss⟩

/-- C3: upload rejects with SizeExceeded exactly when the byte size
exceeds `MAX_FILE_SIZE = 5 * 1024 * 1024 = 5242880`; on rejection the
store is untouched (the check precedes the write), and the rejection
message states the configured maximum (it contains the digit 5, as the
text `5.0`). -/
theorem c3_size_check (fs : Fs) (filename : String) (content : List Nat)
    (uniqueId timestamp : String) (hname : filename ≠ "") :
    ((upload fs filename content uniqueId timestamp).1
        = UploadResult.sizeExceeded sizeExceededMessage
      ↔ MAX_FILE_SIZE < content.length) ∧
    (MAX_FILE_SIZE < content.length →
      (upload fs filename content uniqueId timestamp).2 = fs) ∧
    (∃ pre post : String, sizeExceededMessage = pre ++ "5" ++ post) ∧
    MAX_FILE_SIZE = 5242880 := by
  refine ⟨?_, ?_, ⟨"File too large! Maximum ", ".0MB allowed", rfl⟩, rfl⟩
  · by_cases hsz : MAX_FILE_SIZE < content.length
    · simp only [upload, if_neg hname, if_pos hsz]
      simp [hsz]
    · simp only [upload, if_neg hname, if_neg hsz]
      by_cases hal : allowed_file filename = true
      · simp [hal, hsz]
      · simp [hal, hsz]
  · intro hsz
    simp only [upload, if_neg hname, if_pos hsz]

/-- C4: whenever the lower-cased last extension of the filename is in
the deny-set, `allowed_file`'s logic rejects, for every allow-set —
even one that also contains that extension — because the deny-set
test comes first and short-circuits. -/
theorem c4_deny_set_short_circuits (dangerous allowed : List String)
    (filename : String) (b e : List Char)
    (hsplit : rsplitDot filename.data = some (b, e))
    (hdeny : dangerous.contains (⟨e.map Char.toLower⟩ : String) = true) :
    allowedFileWith dangerous allowed filename = false := by
  unfold allowedFileWith
  rw [hsplit]
  have hdmem : (⟨e.map Char.toLower⟩ : String) ∈ dangerous := by
    simpa [List.contains, List.elem_iff] using hdeny
  simp [hdmem]

/-- C5: an accepted upload followed by a download of the storage name
returned by the upload yields exactly the uploaded bytes.  The random
identifier and timestamp are the generator inputs, constrained to the
shapes `uuid4` and `strftime` actually produce. -/
theorem c5_upload_download_roundtrip (fs : Fs) (filename : String)
    (content : List Nat) (uniqueId timestamp : String)
    (hname : filename ≠ "") (hsize : content.length ≤ MAX_FILE_SIZE)
    (hok : allowed_file filename = true)
    (huid : UidOk uniqueId) (hts : TsOk timestamp) :
    (upload fs filename content uniqueId timestamp).1
      = UploadResult.uploaded (generate_unique_filename filename uniqueId timestamp) ∧
    download (upload fs filename content uniqueId timestamp).2
      (generate_unique_filename filename uniqueId timestamp)
      = DownloadResult.ok content := by
  obtain ⟨b, e, hs, hext⟩ := allowed_file_ext hok
  obtain ⟨a0, u0, hud⟩ : ∃ a0 u0, uniqueId.data = a0 :: u0 := by
    rcases h : uniqueId.data with _ | ⟨a0, u0⟩
    · exact absurd h huid.1
    · exact ⟨a0, u0, rfl⟩
  obtain ⟨a, t, hu⟩ : ∃ a t,
      (generate_unique_filename filename uniqueId timestamp).data = a :: t := by
    rw [gen_data hs, hud]
    exact ⟨_, _, rfl⟩
  have hsz : ¬ MAX_FILE_SIZE < content.length := by omega
  have hal : ¬ ¬ allowed_file filename = true := by simp [hok]
  constructor
  · simp only [upload, if_neg hname, if_neg hsz, if_neg hal]
  · simp only [upload, if_neg hname, if_neg hsz, if_neg hal]
    exact download_stored_head _ _ _ (secure_gen_id hok huid hts) hu rfl

/-- C6 counterexample: the original filename `a..b.png` passes the
extension policy, and the generated storage name keeps the interior
`..` of the sanitized base, so it does contain a `..` character
sequence, contrary to the claim. -/
theorem c6_dotdot_counterexample :
    allowed_file "a..b.png" = true ∧
    generate_unique_filename "a..b.png" "deadbeef" "20241107_120000"
      = "deadbeef_20241107_120000_a..b.png" ∧
    ∃ pre post : String,
      "deadbeef_20241107_120000_a..b.png" = pre ++ ".." ++ post := by
  refine ⟨by decide, by decide, "deadbeef_20241107_120000_a", "b.png", by decide⟩

/-- C6 amended: for every original filename that passes the extension
policy (with generator inputs of the shapes uuid4/strftime produce),
the storage name is nonempty and contains no path separator, neither
slash nor backslash — so joining it onto the storage root cannot
escape the root; a `..` may however survive inside a segment. -/
theorem c6_storage_name_safe (original uniqueId timestamp : String)
    (hok : allowed_file original = true) (huid : UidOk uniqueId) (hts : TsOk timestamp) :
    (generate_unique_filename original uniqueId timestamp).data ≠ [] ∧
    ∀ c ∈ (generate_unique_filename original uniqueId timestamp).data,
      c ≠ '/' ∧ c ≠ '\\' := by
  obtain ⟨b, e, hs, hext⟩ := allowed_file_ext hok
  constructor
  · rw [gen_data hs]
    simp
  · intro c hc
    have hsafe := gen_chars_safe hs hext huid hts c hc
    exact ⟨fsSafe_ne_slash hsafe, fsSafe_ne_backslash hsafe⟩

/-- C7: deleting a storage name whose resolved path does not exist
(`os.path.exists` is false on the resolved candidate path) answers
NotFound; and for every client-supplied name the delete operation
returns one of its four handled outcomes, never an unhandled fault
(in the code, `os.remove` is the only raising call and is wrapped in
try/except). -/
theorem c7_delete_missing_notFound (fs : Fs) (name : String)
    (hmiss : pathExists fs
      (pyJoin UPLOAD_FOLDER.data (secure_filename name).data) = false) :
    (delete fs name).1 = DeleteResult.notFound ∧
    ∀ (fs' : Fs) (nm : String),
      (delete fs' nm).1 = DeleteResult.accessDenied ∨
      (delete fs' nm).1 = DeleteResult.notFound ∨
      (∃ s, (delete fs' nm).1 = DeleteResult.deleted s) ∨
      (delete fs' nm).1 = DeleteResult.deleteFailed := by
  refine ⟨delete_missing fs name hmiss, ?_⟩
  intro fs' nm
  rcases h : (delete fs' nm).1 with _ | _ | s | _
  · exact Or.inl rfl
  · exact Or.inr (Or.inl rfl)
  · exact Or.inr (Or.inr (Or.inl ⟨s, rfl⟩))
  · exact Or.inr (Or.inr (Or.inr rfl))

/-- C8: when the declared size exceeds the maximum and the extension
is also not allowed, the result is SizeExceeded, not TypeNotAllowed:
the size check runs first in upload. -/
theorem c8_size_checked_before_type (fs : Fs) (filename : String)
    (content : List Nat) (uniqueId timestamp : String)
    (hname : filename ≠ "") (hsize : MAX_FILE_SIZE < content.length)
    (_htype : allowed_file filename = false) :
    (upload fs filename content uniqueId timestamp).1
      = UploadResult.sizeExceeded sizeExceededMessage := by
  simp only [upload, if_neg hname, if_pos hsize]

/-- C9: on an original filename without any dot the generator is total
and returns `uniqueId_timestamp_safeBase.` — the empty extension is
appended after the separator, leaving a trailing dot. -/
theorem c9_no_dot_trailing_dot (original uniqueId timestamp : String)
    (h : '.' ∉ original.data) :
    generate_unique_filename original uniqueId timestamp
      = uniqueId ++ "_" ++ timestamp ++ "_" ++ secure_filename original ++ "." ∧
    ∃ pre : List Char,
      (generate_unique_filename original uniqueId timestamp).data = pre ++ ['.'] := by
  have hnone := rsplitDot_eq_none h
  have h1 := gen_eq_noDot original uniqueId timestamp hnone
  refine ⟨h1, ⟨(uniqueId ++ "_" ++ timestamp ++ "_" ++ secure_filename original).data, ?_⟩⟩
  rw [h1, String.data_append]

/-- Concrete listing used to exhibit the double rounding: two regular
files of 5243 bytes each. -/
def demoListing : Fs :=
  ⟨[], [("a.png", List.replicate 5243 0), ("b.png", List.replicate 5243 0)], []⟩

section RatComputation

attribute [local semireducible] Rat.add Rat.mul Rat.inv Rat.sub

/-- C10: the list endpoint reports as total the re-rounding of the sum
of the per-file sizes that were already rounded to 2 decimals, and as
count the number of regular files; on two files of 5243 bytes this
double rounding gives 0.02 MiB whereas rounding the exact total gives
0.01 MiB, so the total is not the rounding of the exact byte count. -/
theorem c10_double_rounding :
    (∀ fs : Fs, FsNamesOk fs →
      (files fs).total_files = fs.files.length ∧
      (files fs).total_size_mb
        = round2 ((fs.files.map (fun f => get_file_size_mb f.2.length)).sum)) ∧
    (files demoListing).total_size_mb
      ≠ round2 ((demoListing.files.map
          (fun f => (f.2.length : ℚ) / (1024 * 1024))).sum) := by
  refine ⟨fun fs h => files_characterization fs h, ?_⟩
  have h1 := (files_characterization demoListing (by constructor <;> decide)).2
  rw [h1]
  have hm : demoListing.files.map (fun f => get_file_size_mb f.2.length)
      = [get_file_size_mb 5243, get_file_size_mb 5243] := by
    simp only [demoListing, List.map_cons, List.map_nil, List.length_replicate]
  have hm2 : demoListing.files.map (fun f => ((f.2.length : ℚ) / (1024 * 1024)))
      = [((5243 : ℕ) : ℚ) / (1024 * 1024), ((5243 : ℕ) : ℚ) / (1024 * 1024)] := by
    simp only [demoListing, List.map_cons, List.map_nil, List.length_replicate]
  rw [hm, hm2]
  decide

end RatComputation

/-! ### Witnesses: the claim theorems applied at concrete inputs -/

/-- C2 witness: the amended statement at the empty store and the
traversal input. -/
theorem c2_traversal_neutralized_witness :
    containment_check
      (realpathL (Fs.mk [] [] []).cwd
        (pyJoin UPLOAD_FOLDER.data (secure_filename "../../etc/passwd").data))
      (rootRealOf (Fs.mk [] [] [])) = true ∧
    download (Fs.mk [] [] []) "../../etc/passwd" = DownloadResult.notFound ∧
    (delete (Fs.mk [] [] []) "../../etc/passwd").1 = DeleteResult.notFound :=
  c2_traversal_neutralized (Fs.mk [] [] []) "../../etc/passwd" (by decide)

/-- C3 witness: a 5242881-byte upload on the empty store. -/
theorem c3_size_check_witness :
    ((upload (Fs.mk [] [] []) "a.txt" (List.replicate 5242881 0)
        "deadbeef" "20241107_120000").1
        = UploadResult.sizeExceeded sizeExceededMessage
      ↔ MAX_FILE_SIZE < (List.replicate 5242881 (0 : Nat)).length) ∧
    (MAX_FILE_SIZE < (List.replicate 5242881 (0 : Nat)).length →
      (upload (Fs.mk [] [] []) "a.txt" (List.replicate 5242881 0)
        "deadbeef" "20241107_120000").2 = Fs.mk [] [] []) ∧
    (∃ pre post : String, sizeExceededMessage = pre ++ "5" ++ post) ∧
    MAX_FILE_SIZE = 5242880 :=
  c3_size_check (Fs.mk [] [] []) "a.txt" (List.replicate 5242881 0)
    "deadbeef" "20241107_120000" (by decide)

/-- C4 witness: `report.exe` against an allow-set that also lists
`exe`. -/
theorem c4_deny_set_short_circuits_witness :
    allowedFileWith DANGEROUS_EXTENSIONS ("exe" :: ALLOWED_EXTENSIONS) "report.exe" = false :=
  c4_deny_set_short_circuits DANGEROUS_EXTENSIONS ("exe" :: ALLOWED_EXTENSIONS)
    "report.exe" ("report").data ("exe").data (by decide) (by decide)

/-- C5 witness: uploading `photo.PNG` with three bytes round-trips. -/
theorem c5_upload_download_roundtrip_witness :
    (upload (Fs.mk [] [] []) "photo.PNG" [1, 2, 3] "deadbeef" "20241107_120000").1
      = UploadResult.uploaded
          (generate_unique_filename "photo.PNG" "deadbeef" "20241107_120000") ∧
    download (upload (Fs.mk [] [] []) "photo.PNG" [1, 2, 3] "deadbeef" "20241107_120000").2
      (generate_unique_filename "photo.PNG" "deadbeef" "20241107_120000")
      = DownloadResult.ok [1, 2, 3] :=
  c5_upload_download_roundtrip (Fs.mk [] [] []) "photo.PNG" [1, 2, 3]
    "deadbeef" "20241107_120000" (by decide) (by decide) (by decide)
    (by constructor <;> decide) (by constructor <;> decide)

/-- C6 witness: the amended guarantee at `photo.PNG`. -/
theorem c6_storage_name_safe_witness :
    (generate_unique_filename "photo.PNG" "deadbeef" "20241107_120000").data ≠ [] ∧
    ∀ c ∈ (generate_unique_filename "photo.PNG" "deadbeef" "20241107_120000").data,
      c ≠ '/' ∧ c ≠ '\\' :=
  c6_storage_name_safe "photo.PNG" "deadbeef" "20241107_120000" (by decide)
    (by constructor <;> decide) (by constructor <;> decide)

/-- C7 witness: deleting `missing.png` from the empty store. -/
theorem c7_delete_missing_notFound_witness :
    (delete (Fs.mk [] [] []) "missing.png").1 = DeleteResult.notFound ∧
    ∀ (fs' : Fs) (nm : String),
      (delete fs' nm).1 = DeleteResult.accessDenied ∨
      (delete fs' nm).1 = DeleteResult.notFound ∨
      (∃ s, (delete fs' nm).1 = DeleteResult.deleted s) ∨
      (delete fs' nm).1 = DeleteResult.deleteFailed :=
  c7_delete_missing_notFound (Fs.mk [] [] []) "missing.png" (by decide)

/-- C8 witness: an oversized upload with a disallowed extension is
answered SizeExceeded. -/
theorem c8_size_checked_before_type_witness :
    (upload (Fs.mk [] [] []) "x.txt" (List.replicate 5242881 0)
        "deadbeef" "20241107_120000").1
      = UploadResult.sizeExceeded sizeExceededMessage :=
  c8_size_checked_before_type (Fs.mk [] [] []) "x.txt" (List.replicate 5242881 0)
    "deadbeef" "20241107_120000" (by decide)
    (by rw [List.length_replicate]; norm_num [MAX_FILE_SIZE]) (by decide)

/-- C9 witness: the generator at the dot-free original `README`. -/
theorem c9_no_dot_trailing_dot_witness :
    generate_unique_filename "README" "deadbeef" "20241107_120000"
      = "deadbeef" ++ "_" ++ "20241107_120000" ++ "_" ++ secure_filename "README" ++ "." ∧
    ∃ pre : List Char,
      (generate_unique_filename "README" "deadbeef" "20241107_120000").data
        = pre ++ ['.'] :=
  c9_no_dot_trailing_dot "README" "deadbeef" "20241107_120000" (by decide)

/-- C10 witness: the characterization applied to the two-file demo
listing. -/
theorem c10_double_rounding_witness :
    (files demoListing).total_files = demoListing.files.length ∧
    (files demoListing).total_size_mb
      = round2 ((demoListing.files.map (fun f => get_file_size_mb f.2.length)).sum) :=
  c10_double_rounding.1 demoListing (by constructor <;> decide)

end FileUploadApi
